import Mathlib

/-!
Verification of the test-plan execution engine of the api-fuzzer repository
(`meqa/mqplan/plan.go`).  The Go code is shallowly embedded: Go maps
(`map[string]interface{}`) become association lists over an arbitrary value
type `V`, the duck-typed body parameter becomes a tagged variant, and the
recursive suite interpreter `TestPlan.Run` becomes a fuel-indexed recursive
function over an explicit state record.  External collaborators (the HTTP
step-runner, the YAML decoder) and repository code that is not part of the
verified file (`mqutil.MapCombine`, `mqutil.MapAdd`, `mqswag.Payload`, the
`Test` helper methods) are modelled from the specification, as marked in the
doc comments below.
-/

namespace Meqa

/-- Association-list lookup, mirroring Go map indexing `m[k]`
(first entry with the key wins; Go maps have unique keys). -/
def alookup {V : Type} : List (String × V) → String → Option V
  | [], _ => none
  | p :: rest, k => if p.1 = k then some p.2 else alookup rest k

/-- Modelled from the spec: `mqutil.MapCombine dst src` — "source entries win
on key conflict, destination-only entries are preserved".  The function lives
in the repository's `mqutil` package, which is not part of the verified file,
so only its lookup-level behaviour specified by the spec is modelled. -/
def MapCombine {V : Type} (dst src : List (String × V)) : List (String × V) :=
  dst.filter (fun p => (alookup src p.1).isNone) ++ src

/-- Modelled from the spec: `mqutil.MapAdd dst src` — "identical mapping-slot
merge but destination wins on conflict (fill-only)". -/
def MapAdd {V : Type} (dst src : List (String × V)) : List (String × V) :=
  dst ++ src.filter (fun p => (alookup dst p.1).isNone)

/-- The duck-typed Go body parameter `BodyParams interface{}`: either the nil
interface, a value that is not a string-keyed map, or a string-keyed map. -/
inductive Body (V : Type) where
  | absent : Body V
  | scalar : V → Body V
  | mapping : List (String × V) → Body V
deriving DecidableEq

/-- `TestParams` from plan.go: four string-keyed parameter maps plus the
duck-typed body value. -/
structure TestParams (V : Type) where
  queryParams : List (String × V) := []
  formParams : List (String × V) := []
  pathParams : List (String × V) := []
  headerParams : List (String × V) := []
  bodyParams : Body V := Body.absent
deriving DecidableEq

/-- `TestParams.Copy` from plan.go lines 40-54: combine the four map slots
with `MapCombine` (src wins); for the body, if both bodies are string-keyed
maps they are combined with `MapCombine` and the function returns, otherwise
the destination body is replaced wholesale by the source body. -/
def TestParams.Copy {V : Type} (dst src : TestParams V) : TestParams V :=
  let base : TestParams V :=
    { queryParams := MapCombine dst.queryParams src.queryParams
      formParams := MapCombine dst.formParams src.formParams
      pathParams := MapCombine dst.pathParams src.pathParams
      headerParams := MapCombine dst.headerParams src.headerParams
      bodyParams := dst.bodyParams }
  match dst.bodyParams, src.bodyParams with
  | Body.mapping caseMap, Body.mapping testMap =>
      { base with bodyParams := Body.mapping (MapCombine caseMap testMap) }
  | _, _ => { base with bodyParams := src.bodyParams }

/-- `TestParams.Add` from plan.go lines 57-74: combine the four map slots with
`MapAdd` (dst wins); for the body, map+map combines with `MapAdd` and
returns; otherwise the destination body is kept unless it is the nil
interface, in which case the source body is adopted. -/
def TestParams.Add {V : Type} (dst src : TestParams V) : TestParams V :=
  let base : TestParams V :=
    { queryParams := MapAdd dst.queryParams src.queryParams
      formParams := MapAdd dst.formParams src.formParams
      pathParams := MapAdd dst.pathParams src.pathParams
      headerParams := MapAdd dst.headerParams src.headerParams
      bodyParams := dst.bodyParams }
  match dst.bodyParams, src.bodyParams with
  | Body.mapping caseMap, Body.mapping testMap =>
      { base with bodyParams := Body.mapping (MapAdd caseMap testMap) }
  | Body.absent, _ => { base with bodyParams := src.bodyParams }
  | _, _ => base

/-- The reserved global-defaults suite name, plan.go line 25. -/
def MeqaInit : String := "meqa_init"

/-- Modelled from the spec: `mqutil.FuzzAll`, the wildcard fuzz type "all"
(the `mqutil` package is not part of the verified file). -/
def FuzzAll : String := "all"

/-- Modelled from the spec: `mqswag.MethodPost`, the POST method constant
(the `mqswag` package is not part of the verified file). -/
def MethodPost : String := "post"

/-- Modelled from the spec: `mqswag.Payload`, "a persisted failure record:
endpoint, method, field name, the failing value, its fuzz type, and an
optional metadata attachment filled in at write time".  The `mqswag` package
is not part of the verified file. -/
structure Payload (V : Type) where
  endpoint : String := ""
  method : String := ""
  field : String := ""
  value : V
  fuzzType : String := ""
  meta : List (String × V) := []
deriving DecidableEq

/-- `mqutil.FuzzValue`: an immutable (value, fuzzType) pair used as a
set-membership key (modelled from the spec; the `mqutil` package is not part
of the verified file). -/
structure FuzzValue (V : Type) where
  value : V
  fuzzType : String
deriving DecidableEq

/-- One declared DSL test step.  The declared fields (`name`, `ref`,
`method`, `path`, `strict`, `params`) are those of the repository's `Test`
record as used by plan.go.  The `out*` fields are modelled from the spec:
they stand for the outcome the external HTTP step-runner (`Test.Run`, which
is outside the verified file) produces for this step — response status code,
returned fuzz-failure payloads, and whether a schema error or a response
error is reported. -/
structure Test (V : Type) where
  name : String := ""
  ref : String := ""
  method : String := ""
  path : String := ""
  strict : Bool := false
  params : TestParams V := {}
  outStatus : Nat := 200
  outPayloads : List (Payload V) := []
  outSchemaErr : Bool := false
  outRespErr : Bool := false
deriving DecidableEq

/-- `TestSuite` from plan.go: a named ordered sequence of tests plus the
suite-level parameter, strictness and authentication defaults. -/
structure TestSuite (V : Type) where
  name : String := ""
  tests : List (Test V) := []
  params : TestParams V := {}
  strict : Bool := false
  username : String := ""
  password : String := ""
  apiToken : String := ""
deriving DecidableEq

/-- The plan state touched by the loader: the name-to-suite mapping, the
declaration-ordered suite list, and the plan-level defaults
(`TestPlan` from plan.go, restricted to the fields the loader reads
and writes). -/
structure Plan (V : Type) where
  suiteMap : List (String × TestSuite V) := []
  suiteList : List (TestSuite V) := []
  params : TestParams V := {}
  strict : Bool := false
  username : String := ""
  password : String := ""
  apiToken : String := ""
deriving DecidableEq

/-- `CreateTestSuite` from plan.go lines 95-108: a fresh suite whose
parameters are seeded by `Copy` from the plan's current defaults (the zero
`TestParams` copied from the plan's bundle) and whose strictness and
authentication data are taken from the plan. -/
def CreateTestSuite {V : Type} (name : String) (tests : List (Test V))
    (plan : Plan V) : TestSuite V :=
  { name := name
    tests := tests
    params := TestParams.Copy {} plan.params
    strict := plan.strict
    username := plan.username
    password := plan.password
    apiToken := plan.apiToken }

/-- `TestPlan.Add` from plan.go lines 141-150: reject a suite whose name is
already registered with a duplicate-name error, otherwise register it in
both the map and the ordered list. -/
def Plan.Add {V : Type} (plan : Plan V) (testSuite : TestSuite V) :
    Plan V × Option String :=
  match alookup plan.suiteMap testSuite.name with
  | some _ =>
      (plan, some ("Duplicate name " ++ testSuite.name ++ " found in test plan"))
  | none =>
      ({ plan with
          suiteMap := plan.suiteMap ++ [(testSuite.name, testSuite)]
          suiteList := plan.suiteList ++ [testSuite] }, none)

/-- The suite-name/test-list pairs of one decoded plan chunk.  plan.go
decodes a chunk with the external YAML library into
`map[string][]*Test`; the decoded mapping is modelled as an ordered
association list (Go map iteration order is unspecified; the model fixes the
listed order), and a chunk that fails to decode is `none`. -/
def Chunk (V : Type) : Type := Option (List (String × List (Test V)))

/-- The suite-registration loop inside `AddFromString` (plan.go lines
160-179): the reserved `meqa_init` name applies each of its tests' parameters
(via `Copy`) and strict flag to the plan defaults and is never registered;
any other entry is built with `CreateTestSuite` and registered with `Add`,
and the first `Add` error aborts the remaining entries of this chunk. -/
def addSuites {V : Type} :
    Plan V → List (String × List (Test V)) → Plan V × Option String
  | plan, [] => (plan, none)
  | plan, (suiteName, testList) :: rest =>
      if suiteName = MeqaInit then
        let plan1 := testList.foldl
          (fun p t => { p with params := p.params.Copy t.params, strict := t.strict })
          plan
        addSuites plan1 rest
      else
        match Plan.Add plan (CreateTestSuite suiteName testList plan) with
        | (p, some e) => (p, some e)
        | (p, none) => addSuites p rest

/-- `TestPlan.AddFromString` from plan.go lines 152-181, over an
already-decoded chunk: a chunk that failed to decode yields the decode
error; otherwise the suite entries are registered with `addSuites`. -/
def AddFromString {V : Type} (plan : Plan V) (chunk : Chunk V) :
    Plan V × Option String :=
  match chunk with
  | none => (plan, some "yaml unmarshal error")
  | some entries => addSuites plan entries

/-- The `plan.Init` reset performed at the top of `InitFromFile`
(plan.go lines 404-410): the suite map and suite list are cleared. -/
def Plan.InitReset {V : Type} (plan : Plan V) : Plan V :=
  { plan with suiteMap := [], suiteList := [] }

/-- `TestPlan.InitFromFile` from plan.go lines 183-197, over the decoded
chunks of a readable plan file: reset the plan, feed every chunk to
`AddFromString` with the returned error discarded, and return nil.
(The only error path of the Go function is the file-read failure, which
precedes everything modelled here.) -/
def InitFromFile {V : Type} (plan : Plan V) (chunks : List (Chunk V)) :
    Plan V × Option String :=
  (chunks.foldl (fun p chunk => (AddFromString p chunk).1) plan.InitReset, none)

/-- The nested old-failure lookup of plan.go line 131:
endpoint → method → field → set of FuzzValues.  The innermost
`map[mqutil.FuzzValue]bool` (whose entries are only ever set to true) is
modelled as an insertion-ordered list of distinct keys. -/
def FailMap (V : Type) : Type :=
  List (String × List (String × List (String × List (FuzzValue V))))

/-- Insertion into the innermost `map[mqutil.FuzzValue]bool`: setting an
already present key leaves the set unchanged. -/
def fvInsert {V : Type} [DecidableEq V] (s : List (FuzzValue V))
    (fv : FuzzValue V) : List (FuzzValue V) :=
  if fv ∈ s then s else s ++ [fv]

/-- Update the (first) entry of an association list at key `k` with `f`,
inserting `f d` when the key is absent — the Go idiom
`if m[k] == nil { m[k] = make(...) }; ... m[k]` used by ReadFails. -/
def amodify {β : Type} :
    List (String × β) → String → (β → β) → β → List (String × β)
  | [], k, f, d => [(k, f d)]
  | p :: rest, k, f, d =>
      if p.1 = k then (p.1, f p.2) :: rest else p :: amodify rest k f d

/-- The Go boolean test of plan.go line 226:
`plan.FuzzType == v.FuzzType || plan.FuzzType == mqutil.FuzzAll`. -/
def matchedB {V : Type} (cfg : String) (v : Payload V) : Bool :=
  cfg == v.fuzzType || cfg == FuzzAll

/-- One iteration of the ReadFails decode loop (plan.go lines 208-232):
ensure the endpoint → method → field path exists in the nested map (with an
empty innermost set when absent), then either add the record's FuzzValue to
the innermost set (fuzz type matches the configuration or the configuration
is the wildcard) or append the record unchanged to OtherFailures. -/
def readStep {V : Type} [DecidableEq V] (cfg : String)
    (acc : FailMap V × List (Payload V)) (v : Payload V) :
    FailMap V × List (Payload V) :=
  let leafF : List (FuzzValue V) → List (FuzzValue V) :=
    if matchedB cfg v then
      fun s => fvInsert s { value := v.value, fuzzType := v.fuzzType }
    else id
  (amodify acc.1 v.endpoint
    (fun m2 => amodify m2 v.method
      (fun m3 => amodify m3 v.field leafF []) []) [],
   if matchedB cfg v then acc.2 else acc.2 ++ [v])

/-- `TestPlan.ReadFails` from plan.go lines 200-235, over the decoded record
stream of the corpus file: fold the decode loop over the records starting
from an empty nested map and an empty OtherFailures list, producing the
OldFailuresMap and the OtherFailures list. -/
def ReadFails {V : Type} [DecidableEq V] (cfg : String)
    (records : List (Payload V)) : FailMap V × List (Payload V) :=
  records.foldl (readStep cfg) ([], [])

/-- Path lookup in the nested OldFailuresMap. -/
def lookup3 {V : Type} (m : FailMap V) (e mt f : String) :
    Option (List (FuzzValue V)) :=
  (alookup m e).bind fun m2 => (alookup m2 mt).bind fun m3 => alookup m3 f

/-- `TestPlan.WriteFailures` from plan.go lines 305-350 in the default
append mode (`Repro` false): every NewFailures record is enriched with the
sidecar metadata and appended to the cumulative corpus file, and the same
enriched records are written to the truncated new-failures file.  The result
is (contents of the cumulative file, contents of the new-failures file). -/
def WriteFailuresAppend {V : Type} (meta : List (String × V))
    (existing newFailures : List (Payload V)) :
    List (Payload V) × List (Payload V) :=
  let enriched := newFailures.map fun p => { p with meta := meta }
  (existing ++ enriched, enriched)

/-- The run counters (`ResultCounts map[string]int` from plan.go; a missing
key reads as zero, so the counters are modelled as a record of naturals). -/
structure Counters where
  total : Nat := 0
  passed : Nat := 0
  failed : Nat := 0
  skipped : Nat := 0
  schemaMismatch : Nat := 0
  fuzzTotal : Nat := 0
deriving DecidableEq

/-- The numbers printed by the summary table. -/
structure Summary where
  passed : Nat
  failed : Nat
  skipped : Nat
  schemaMismatch : Nat
  total : Nat
  fuzzFails : Nat
  fuzzTotal : Nat
deriving DecidableEq

/-- `TestPlan.PrintSummary` from plan.go lines 387-402, as the pure function
computing the printed numbers: the five counter values, the length of the
accumulated NewFailures list (line 398), and the fuzz total counter. -/
def PrintSummary {V : Type} (counts : Counters)
    (newFailures : List (Payload V)) : Summary :=
  { passed := counts.passed
    failed := counts.failed
    skipped := counts.skipped
    schemaMismatch := counts.schemaMismatch
    total := counts.total
    fuzzFails := newFailures.length
    fuzzTotal := counts.fuzzTotal }

/-- Following the claim's words (for comparison with `PrintSummary`): the
number of distinct fuzz failures among the accumulated NewFailures, with
identical fuzz inputs collapsed regardless of how many times they were
observed. -/
def distinctCount {α : Type} [DecidableEq α] : List α → Nat
  | [] => 0
  | a :: rest => (if a ∈ rest then 0 else 1) + distinctCount rest

/-- The mutable state touched by `TestPlan.Run`: the plan's suite map (suites
are reached through pointers in Go, so in-place suite mutations are modelled
by writing the updated suite back into the map), the plan's accumulated
NewFailures and result list, and the global run history. -/
structure RunState (V : Type) where
  suiteMap : List (String × TestSuite V) := []
  newFailures : List (Payload V) := []
  resultList : List (Test V) := []
  history : List (Test V) := []
deriving DecidableEq

/-- Suite lookup `plan.SuiteMap[name]`. -/
def getSuite {V : Type} (st : RunState V) (name : String) :
    Option (TestSuite V) :=
  alookup st.suiteMap name

/-- Replace the first entry with the given name (Go suite maps have unique
keys, and suite mutation happens in place through the unique pointer). -/
def updateFirst {V : Type} :
    List (String × TestSuite V) → String → TestSuite V →
    List (String × TestSuite V)
  | [], _, _ => []
  | p :: rest, n, tc =>
      if p.1 = n then (p.1, tc) :: rest else p :: updateFirst rest n tc

/-- Write an updated suite back into the state (the Go in-place mutation of
the suite reached through `plan.SuiteMap[name]`). -/
def setSuite {V : Type} (st : RunState V) (name : String) (tc : TestSuite V) :
    RunState V :=
  { st with suiteMap := updateFirst st.suiteMap name tc }

/-- Modelled from the spec: `Test.CopyParent` (outside the verified file)
copies contextual parameter state from the parent ref step onto the
duplicate; the duplicate's own method, path and outcome stay its own.  No
claim settled below depends on its internals. -/
def Test.CopyParent {V : Type} (dup parent : Test V) : Test V :=
  { dup with params := dup.params.Copy parent.params }

/-- Modelled from the spec: `Test.ResolveHistoryParameters` (outside the
verified file) replaces parameter expressions pointing at prior results with
values from the run history; on the already-concrete parameters modelled
here it returns the test unchanged.  No claim settled below depends on its
internals. -/
def Test.ResolveHistory {V : Type} (dup : Test V) (_history : List (Test V)) :
    Test V :=
  dup

mutual

/-- `TestPlan.Run` from plan.go lines 413-485, fuel-indexed (the Go function
can recurse forever through cyclic suite references; `fuel` bounds the
number of loop iterations and suite entries).  Returns the counters, the
returned error (`none` for nil) and the final state. -/
def runSuite {V : Type} [DecidableEq V] :
    Nat → RunState V → String → Option (Test V) →
    Counters × Option String × RunState V
  | 0, st, _, _ => ({}, some "out of fuel", st)
  | fuel + 1, st, name, parentTest =>
      match getSuite st name with
      | none =>
          ({}, some ("The following test suite is not found: " ++ name), st)
      | some tc =>
          if tc.tests.length = 0 then
            ({}, some ("The following test suite is not found: " ++ name), st)
          else
            runFrom fuel st name parentTest 0 { total := tc.tests.length } none

/-- The loop of `TestPlan.Run` over `tc.Tests` from index `i` on, carrying
the accumulated counters and the first-encountered step error `tcErr`.  The
suite is re-read from the state on every iteration because ref steps and
`meqa_init` steps mutate it in place.  A ref step writes the suite's strict
flag onto the declared test, recursively runs the referenced suite and — the
returned counters being bound to a fresh, shadowed variable in the Go code —
discards them on success, while on error it returns the recursive call's
counters and error immediately.  A `meqa_init` step copies its parameters
and strict flag onto the suite.  A concrete step runs on a duplicate
(`SchemaDuplicate`, modelled from the spec as an independent copy of the
declaration), inherits the suite's strict flag, is combined with the parent
and resolved against history, appended to history and the result list, and
classified into the counters; afterwards the cascading-skip rule checks for
a no-path-parameter POST whose response status is at least 300. -/
def runFrom {V : Type} [DecidableEq V] :
    Nat → RunState V → String → Option (Test V) → Nat → Counters →
    Option String → Counters × Option String × RunState V
  | 0, st, _, _, _, counters, _ => (counters, some "out of fuel", st)
  | fuel + 1, st, name, parentTest, i, counters, tcErr =>
      match getSuite st name with
      | none => (counters, some "out of fuel", st)
      | some tc =>
          match tc.tests[i]? with
          | none => (counters, tcErr, st)
          | some test =>
              if test.ref ≠ "" then
                let test1 := { test with strict := tc.strict }
                let tc1 := { tc with tests := tc.tests.set i test1 }
                let st1 := setSuite st name tc1
                match runSuite fuel st1 test1.ref (some test1) with
                | (rc, some err, st2) => (rc, some err, st2)
                | (_, none, st2) =>
                    runFrom fuel st2 name parentTest (i + 1) counters tcErr
              else if test.name = MeqaInit then
                let tc1 :=
                  { tc with params := tc.params.Copy test.params
                            strict := test.strict }
                runFrom fuel (setSuite st name tc1) name parentTest (i + 1)
                  counters tcErr
              else
                let dup0 := { test with strict := tc.strict }
                let dup1 :=
                  match parentTest with
                  | some p => Test.CopyParent dup0 p
                  | none => dup0
                let dup2 := Test.ResolveHistory dup1 st.history
                let dup3 :=
                  match parentTest with
                  | some p => { dup2 with name := p.name }
                  | none => dup2
                let st1 : RunState V :=
                  { st with
                      history := st.history ++ [dup3]
                      newFailures := st.newFailures ++ dup3.outPayloads
                      resultList := st.resultList ++ [dup3] }
                let c1 :=
                  if dup3.outSchemaErr then
                    { counters with schemaMismatch := counters.schemaMismatch + 1 }
                  else counters
                let c2 :=
                  if dup3.outRespErr then { c1 with failed := c1.failed + 1 }
                  else { c1 with passed := c1.passed + 1 }
                let tcErr1 :=
                  if dup3.outRespErr then some (tcErr.getD dup3.name) else tcErr
                if dup3.method = MethodPost ∧ dup3.params.pathParams = [] ∧
                    300 ≤ dup3.outStatus then
                  ({ c2 with skipped := c2.skipped + (tc.tests.length - i - 1) },
                    tcErr1, st1)
                else
                  runFrom fuel st1 name parentTest (i + 1) c2 tcErr1

end

/-- The cascading-skip condition of plan.go line 478: the step is a POST, it
has no path parameters, and its response status code is at least 300. -/
def skipTrigger {V : Type} (t : Test V) : Prop :=
  t.method = MethodPost ∧ t.params.pathParams = [] ∧ 300 ≤ t.outStatus

instance {V : Type} [DecidableEq V] (t : Test V) : Decidable (skipTrigger t) := by
  unfold skipTrigger; exact inferInstance

/-- The innermost FuzzValue set stored in the nested OldFailuresMap under a
path, the empty set when the path is absent. -/
def leafGet {V : Type} (m : FailMap V) (e mt f : String) : List (FuzzValue V) :=
  (lookup3 m e mt f).getD []

/-- How running a suite may change one declared test: every declared field —
name, ref, method, path, the whole parameter bundle and the outcome — is
untouched, and the strict flag is also untouched except possibly on a test
that carries a suite reference. -/
def testPreserved {V : Type} (t t' : Test V) : Prop :=
  (t'.strict = t.strict ∨ t.ref ≠ "") ∧
  t'.name = t.name ∧ t'.ref = t.ref ∧ t'.method = t.method ∧
  t'.path = t.path ∧ t'.params = t.params ∧ t'.outStatus = t.outStatus ∧
  t'.outPayloads = t.outPayloads ∧ t'.outSchemaErr = t.outSchemaErr ∧
  t'.outRespErr = t.outRespErr

/-- How running a suite may change one suite-map entry: same key, the suite's
name and authentication fields untouched (its tests list, parameter defaults
and strict flag may change through `meqa_init` steps), and every declared
test changed at most as `testPreserved` allows. -/
def suiteEntryPreserved {V : Type} (p q : String × TestSuite V) : Prop :=
  q.1 = p.1 ∧ q.2.name = p.2.name ∧ q.2.username = p.2.username ∧
  q.2.password = p.2.password ∧ q.2.apiToken = p.2.apiToken ∧
  List.Forall₂ testPreserved p.2.tests q.2.tests

/-- How running a suite may change the whole suite map. -/
def statePreserved {V : Type} (st st' : RunState V) : Prop :=
  List.Forall₂ suiteEntryPreserved st.suiteMap st'.suiteMap

/-! ### Concrete fixtures used by witnesses and counterexamples -/

/-- C1 fixture: a three-step suite whose middle step is a no-path-parameter
POST answered with status 404. -/
def fixC1t0 : Test Nat := { name := "c1a", method := "get" }

def fixC1t1 : Test Nat :=
  { name := "c1b", method := "post", outStatus := 404, outRespErr := true }

def fixC1t2 : Test Nat := { name := "c1c", method := "get" }

def fixC1suite : TestSuite Nat :=
  { name := "w1", tests := [fixC1t0, fixC1t1, fixC1t2] }

def fixC1st : RunState Nat := { suiteMap := [("w1", fixC1suite)] }

/-- C2 fixture: suite A runs one passing concrete step and then references
suite B, whose single concrete step also passes. -/
def fixC2ta : Test Nat := { name := "ta", method := "get" }

def fixC2refTest : Test Nat := { name := "ra", ref := "B" }

def fixC2A : TestSuite Nat := { name := "A", tests := [fixC2ta, fixC2refTest] }

def fixC2tb : Test Nat := { name := "tb", method := "get" }

def fixC2B : TestSuite Nat := { name := "B", tests := [fixC2tb] }

def fixC2st : RunState Nat := { suiteMap := [("A", fixC2A), ("B", fixC2B)] }

/-- C3 fixture: two decoded chunks declaring the same suite name. -/
def fixC3test : Test Nat := { name := "t3", method := "get" }

def fixC3doc : List (Chunk Nat) :=
  [some [("s3", [fixC3test])], some [("s3", [fixC3test])]]

def fixC3suite : TestSuite Nat := CreateTestSuite "s3" [fixC3test] {}

def fixC3plan : Plan Nat :=
  { suiteMap := [("s3", fixC3suite)], suiteList := [fixC3suite] }

/-- C4 fixture: overlapping and destination-only keys in every slot. -/
def fixC4dst : TestParams Nat :=
  { queryParams := [("k", 1), ("dq", 5)]
    formParams := [("f", 1)]
    pathParams := [("dp", 7)]
    headerParams := [("h", 1)]
    bodyParams := Body.mapping [("b", 1), ("db", 4)] }

def fixC4src : TestParams Nat :=
  { queryParams := [("k", 2)]
    formParams := [("f", 2)]
    headerParams := [("h", 2)]
    bodyParams := Body.mapping [("b", 2)] }

/-- C5 fixture: an absent destination body adopting a scalar source body. -/
def fixC5dst : TestParams Nat := { queryParams := [("k", 1)] }

def fixC5src : TestParams Nat :=
  { queryParams := [("k", 2), ("sq", 3)], bodyParams := Body.scalar 9 }

/-- C6 fixture: one record of the configured fuzz type and one of another. -/
def fixC6p1 : Payload Nat :=
  { endpoint := "e6", method := "post", field := "f6", value := 1,
    fuzzType := "dataType" }

def fixC6p2 : Payload Nat :=
  { endpoint := "e6", method := "post", field := "f6", value := 2,
    fuzzType := "enum" }

def fixC6meta : List (String × Nat) := [("run", 7)]

/-- C7 fixture: suite A7 declares (with strict false) a single ref step
toward suite B7 while the suite itself is strict. -/
def fixC7refTest : Test Nat := { name := "r7", ref := "B7" }

def fixC7A : TestSuite Nat :=
  { name := "A7", tests := [fixC7refTest], strict := true }

def fixC7B : TestSuite Nat :=
  { name := "B7", tests := [{ name := "tb7", method := "get" }] }

def fixC7st : RunState Nat := { suiteMap := [("A7", fixC7A), ("B7", fixC7B)] }

/-- C8 fixture: two passing steps that each report the same fuzz-failure
payload, so the accumulated NewFailures list holds one input twice. -/
def fixC8p : Payload Nat :=
  { endpoint := "e8", method := "get", field := "f8", value := 3,
    fuzzType := "ft8" }

def fixC8suite : TestSuite Nat :=
  { name := "s8", tests :=
      [ { name := "x8", method := "get", outPayloads := [fixC8p] },
        { name := "y8", method := "get", outPayloads := [fixC8p] } ] }

def fixC8st : RunState Nat := { suiteMap := [("s8", fixC8suite)] }

/-- C9 fixture: a plan document with a malformed chunk and a duplicated
suite name in the middle. -/
def fixC9t : Test Nat := { name := "t9", method := "get" }

def fixC9doc : List (Chunk Nat) :=
  [some [("a9", [fixC9t])], none, some [("a9", [fixC9t])],
    some [("b9", [fixC9t])]]

/-- C10 fixture: a single record whose fuzz type differs from the
configured one. -/
def fixC10r : Payload Nat :=
  { endpoint := "ea", method := "get", field := "fa", value := 5,
    fuzzType := "enum" }

/-! ## Lookup lemmas for the parameter-merge algebra -/

theorem alookup_append_of_some {V : Type} {l₁ : List (String × V)}
    {k : String} {v : V} (l₂ : List (String × V)) (h : alookup l₁ k = some v) :
    alookup (l₁ ++ l₂) k = some v := by
  induction l₁ with
  | nil => simp [alookup] at h
  | cons p rest ih =>
      by_cases hp : p.1 = k
      · simp only [List.cons_append, alookup, if_pos hp] at h ⊢
        exact h
      · simp only [List.cons_append, alookup, if_neg hp] at h ⊢
        exact ih h

theorem alookup_append_of_none {V : Type} {l₁ : List (String × V)}
    {k : String} (l₂ : List (String × V)) (h : alookup l₁ k = none) :
    alookup (l₁ ++ l₂) k = alookup l₂ k := by
  induction l₁ with
  | nil => simp [alookup]
  | cons p rest ih =>
      by_cases hp : p.1 = k
      · simp [alookup, hp] at h
      · simp only [List.cons_append, alookup, if_neg hp] at h ⊢
        exact ih h

theorem alookup_filter_other {V : Type} {a : List (String × V)} {k : String}
    (b : List (String × V)) (h : alookup a k = none) :
    alookup (b.filter fun p => (alookup a p.1).isNone) k = alookup b k := by
  induction b with
  | nil => simp
  | cons p rest ih =>
      by_cases hp : p.1 = k
      · subst hp
        simp [List.filter_cons, h, alookup]
      · by_cases hk : (alookup a p.1).isNone
        · simp [List.filter_cons, hk, alookup, hp, ih]
        · simp [List.filter_cons, hk, alookup, hp, ih]

theorem alookup_filter_dropped {V : Type} {a : List (String × V)} {k : String}
    {v : V} (b : List (String × V)) (h : alookup a k = some v) :
    alookup (b.filter fun p => (alookup a p.1).isNone) k = none := by
  induction b with
  | nil => simp [alookup]
  | cons p rest ih =>
      by_cases hp : p.1 = k
      · subst hp
        simp [List.filter_cons, h, ih]
      · by_cases hk : (alookup a p.1).isNone
        · simp [List.filter_cons, hk, alookup, hp, ih]
        · simp [List.filter_cons, hk, alookup, hp, ih]

theorem MapCombine_lookup_of_src {V : Type} {src : List (String × V)}
    {k : String} {v : V} (dst : List (String × V))
    (h : alookup src k = some v) : alookup (MapCombine dst src) k = some v := by
  unfold MapCombine
  rw [alookup_append_of_none src (alookup_filter_dropped dst h)]
  exact h

theorem MapCombine_lookup_of_dst {V : Type} {src : List (String × V)}
    {k : String} (dst : List (String × V)) (h : alookup src k = none) :
    alookup (MapCombine dst src) k = alookup dst k := by
  unfold MapCombine
  cases hd : alookup (dst.filter fun p => (alookup src p.1).isNone) k with
  | none =>
      rw [alookup_append_of_none src hd, h, ← alookup_filter_other dst h, hd]
  | some w =>
      rw [alookup_append_of_some src hd, ← alookup_filter_other dst h, hd]

theorem MapAdd_lookup_of_dst {V : Type} {dst : List (String × V)} {k : String}
    {v : V} (src : List (String × V)) (h : alookup dst k = some v) :
    alookup (MapAdd dst src) k = some v := by
  unfold MapAdd
  exact alookup_append_of_some _ h

theorem MapAdd_lookup_of_src {V : Type} {dst : List (String × V)} {k : String}
    (src : List (String × V)) (h : alookup dst k = none) :
    alookup (MapAdd dst src) k = alookup src k := by
  unfold MapAdd
  rw [alookup_append_of_none _ h]
  exact alookup_filter_other src h

theorem copy_slots {V : Type} (dst src : TestParams V) :
    (dst.Copy src).queryParams = MapCombine dst.queryParams src.queryParams ∧
    (dst.Copy src).formParams = MapCombine dst.formParams src.formParams ∧
    (dst.Copy src).pathParams = MapCombine dst.pathParams src.pathParams ∧
    (dst.Copy src).headerParams = MapCombine dst.headerParams src.headerParams := by
  obtain ⟨q, f, p, h, b⟩ := dst
  obtain ⟨q2, f2, p2, h2, b2⟩ := src
  cases b <;> cases b2 <;> simp [TestParams.Copy]

theorem add_slots {V : Type} (dst src : TestParams V) :
    (dst.Add src).queryParams = MapAdd dst.queryParams src.queryParams ∧
    (dst.Add src).formParams = MapAdd dst.formParams src.formParams ∧
    (dst.Add src).pathParams = MapAdd dst.pathParams src.pathParams ∧
    (dst.Add src).headerParams = MapAdd dst.headerParams src.headerParams := by
  obtain ⟨q, f, p, h, b⟩ := dst
  obtain ⟨q2, f2, p2, h2, b2⟩ := src
  cases b <;> cases b2 <;> simp [TestParams.Add]

theorem copy_body_maps {V : Type} {dst src : TestParams V}
    {dm sm : List (String × V)} (hd : dst.bodyParams = Body.mapping dm)
    (hs : src.bodyParams = Body.mapping sm) :
    (dst.Copy src).bodyParams = Body.mapping (MapCombine dm sm) := by
  obtain ⟨q, f, p, h, b⟩ := dst
  obtain ⟨q2, f2, p2, h2, b2⟩ := src
  simp only at hd hs
  subst hd
  subst hs
  simp [TestParams.Copy]

theorem copy_body_other {V : Type} {dst src : TestParams V}
    (hno : ∀ dm sm, ¬ (dst.bodyParams = Body.mapping dm ∧
      src.bodyParams = Body.mapping sm)) :
    (dst.Copy src).bodyParams = src.bodyParams := by
  obtain ⟨q, f, p, h, b⟩ := dst
  obtain ⟨q2, f2, p2, h2, b2⟩ := src
  simp only at hno
  cases b <;> cases b2 <;> simp [TestParams.Copy]
  exact absurd ⟨rfl, rfl⟩ (hno _ _)

theorem add_body_maps {V : Type} {dst src : TestParams V}
    {dm sm : List (String × V)} (hd : dst.bodyParams = Body.mapping dm)
    (hs : src.bodyParams = Body.mapping sm) :
    (dst.Add src).bodyParams = Body.mapping (MapAdd dm sm) := by
  obtain ⟨q, f, p, h, b⟩ := dst
  obtain ⟨q2, f2, p2, h2, b2⟩ := src
  simp only at hd hs
  subst hd
  subst hs
  simp [TestParams.Add]

theorem add_body_absent {V : Type} {dst src : TestParams V}
    (hd : dst.bodyParams = Body.absent) :
    (dst.Add src).bodyParams = src.bodyParams := by
  obtain ⟨q, f, p, h, b⟩ := dst
  obtain ⟨q2, f2, p2, h2, b2⟩ := src
  simp only at hd
  subst hd
  cases b2 <;> simp [TestParams.Add]

theorem add_body_keep {V : Type} {dst src : TestParams V}
    (hd : dst.bodyParams ≠ Body.absent)
    (hno : ∀ dm sm, ¬ (dst.bodyParams = Body.mapping dm ∧
      src.bodyParams = Body.mapping sm)) :
    (dst.Add src).bodyParams = dst.bodyParams := by
  obtain ⟨q, f, p, h, b⟩ := dst
  obtain ⟨q2, f2, p2, h2, b2⟩ := src
  simp only at hd hno
  cases b <;> cases b2 <;> simp [TestParams.Add]
  · exact absurd rfl hd
  · exact absurd rfl hd
  · exact absurd ⟨rfl, rfl⟩ (hno _ _)

/-- **C4**: `Copy(dst, src)` gives, in each of the four mapping slots, the
source value on every key present in the source (hence on keys present in
both) and the destination's original value on keys absent from the source
(hence on keys only in the destination); for the body, two mappings merge
with source winning on conflict, and in every other case — including an
absent source body — the destination body is replaced wholesale by the
source body.  Both sides being entirely empty bundles is tolerated by
construction, `Copy` being a total function. -/
theorem c4_copy_semantics {V : Type} (dst src : TestParams V) :
    ((∀ k v, alookup src.queryParams k = some v →
        alookup (dst.Copy src).queryParams k = some v) ∧
     (∀ k, alookup src.queryParams k = none →
        alookup (dst.Copy src).queryParams k = alookup dst.queryParams k)) ∧
    ((∀ k v, alookup src.formParams k = some v →
        alookup (dst.Copy src).formParams k = some v) ∧
     (∀ k, alookup src.formParams k = none →
        alookup (dst.Copy src).formParams k = alookup dst.formParams k)) ∧
    ((∀ k v, alookup src.pathParams k = some v →
        alookup (dst.Copy src).pathParams k = some v) ∧
     (∀ k, alookup src.pathParams k = none →
        alookup (dst.Copy src).pathParams k = alookup dst.pathParams k)) ∧
    ((∀ k v, alookup src.headerParams k = some v →
        alookup (dst.Copy src).headerParams k = some v) ∧
     (∀ k, alookup src.headerParams k = none →
        alookup (dst.Copy src).headerParams k = alookup dst.headerParams k)) ∧
    (∀ dm sm, dst.bodyParams = Body.mapping dm →
      src.bodyParams = Body.mapping sm →
      (dst.Copy src).bodyParams = Body.mapping (MapCombine dm sm) ∧
      (∀ k v, alookup sm k = some v → alookup (MapCombine dm sm) k = some v) ∧
      (∀ k, alookup sm k = none →
        alookup (MapCombine dm sm) k = alookup dm k)) ∧
    ((∀ dm sm, ¬ (dst.bodyParams = Body.mapping dm ∧
        src.bodyParams = Body.mapping sm)) →
      (dst.Copy src).bodyParams = src.bodyParams) := by
  obtain ⟨hq, hf, hp, hh⟩ := copy_slots dst src
  refine ⟨⟨?_, ?_⟩, ⟨?_, ?_⟩, ⟨?_, ?_⟩, ⟨?_, ?_⟩, ?_, ?_⟩
  · intro k v h; rw [hq]; exact MapCombine_lookup_of_src _ h
  · intro k h; rw [hq]; exact MapCombine_lookup_of_dst _ h
  · intro k v h; rw [hf]; exact MapCombine_lookup_of_src _ h
  · intro k h; rw [hf]; exact MapCombine_lookup_of_dst _ h
  · intro k v h; rw [hp]; exact MapCombine_lookup_of_src _ h
  · intro k h; rw [hp]; exact MapCombine_lookup_of_dst _ h
  · intro k v h; rw [hh]; exact MapCombine_lookup_of_src _ h
  · intro k h; rw [hh]; exact MapCombine_lookup_of_dst _ h
  · intro dm sm hd hs
    exact ⟨copy_body_maps hd hs,
      fun k v h => MapCombine_lookup_of_src _ h,
      fun k h => MapCombine_lookup_of_dst _ h⟩
  · intro hno; exact copy_body_other hno

/-- Witness for C4 at the concrete fixture bundles: the shared query key
takes the source value, the destination-only query key keeps its value, and
the two mapping bodies merge. -/
theorem c4_copy_semantics_witness :
    alookup (fixC4dst.Copy fixC4src).queryParams "k" = some 2 ∧
    alookup (fixC4dst.Copy fixC4src).queryParams "dq" =
      alookup fixC4dst.queryParams "dq" ∧
    (fixC4dst.Copy fixC4src).bodyParams =
      Body.mapping (MapCombine [("b", 1), ("db", 4)] [("b", 2)]) :=
  ⟨(c4_copy_semantics fixC4dst fixC4src).1.1 "k" 2 (by decide),
   (c4_copy_semantics fixC4dst fixC4src).1.2 "dq" (by decide),
   ((c4_copy_semantics fixC4dst fixC4src).2.2.2.2.1 _ _ rfl rfl).1⟩

/-- **C5**: `Add(dst, src)` never overwrites a key already present in the
destination in any of the four mapping slots, and on keys absent from the
destination it takes the source's value (so keys only in the source are
copied in); for the body, two mappings merge with destination winning, an
unset destination body adopts the source body, and in every other case the
destination body is left untouched. -/
theorem c5_add_semantics {V : Type} (dst src : TestParams V) :
    ((∀ k v, alookup dst.queryParams k = some v →
        alookup (dst.Add src).queryParams k = some v) ∧
     (∀ k, alookup dst.queryParams k = none →
        alookup (dst.Add src).queryParams k = alookup src.queryParams k)) ∧
    ((∀ k v, alookup dst.formParams k = some v →
        alookup (dst.Add src).formParams k = some v) ∧
     (∀ k, alookup dst.formParams k = none →
        alookup (dst.Add src).formParams k = alookup src.formParams k)) ∧
    ((∀ k v, alookup dst.pathParams k = some v →
        alookup (dst.Add src).pathParams k = some v) ∧
     (∀ k, alookup dst.pathParams k = none →
        alookup (dst.Add src).pathParams k = alookup src.pathParams k)) ∧
    ((∀ k v, alookup dst.headerParams k = some v →
        alookup (dst.Add src).headerParams k = some v) ∧
     (∀ k, alookup dst.headerParams k = none →
        alookup (dst.Add src).headerParams k = alookup src.headerParams k)) ∧
    (∀ dm sm, dst.bodyParams = Body.mapping dm →
      src.bodyParams = Body.mapping sm →
      (dst.Add src).bodyParams = Body.mapping (MapAdd dm sm) ∧
      (∀ k v, alookup dm k = some v → alookup (MapAdd dm sm) k = some v) ∧
      (∀ k, alookup dm k = none → alookup (MapAdd dm sm) k = alookup sm k)) ∧
    (dst.bodyParams = Body.absent →
      (dst.Add src).bodyParams = src.bodyParams) ∧
    (dst.bodyParams ≠ Body.absent →
      (∀ dm sm, ¬ (dst.bodyParams = Body.mapping dm ∧
        src.bodyParams = Body.mapping sm)) →
      (dst.Add src).bodyParams = dst.bodyParams) := by
  obtain ⟨hq, hf, hp, hh⟩ := add_slots dst src
  refine ⟨⟨?_, ?_⟩, ⟨?_, ?_⟩, ⟨?_, ?_⟩, ⟨?_, ?_⟩, ?_, ?_, ?_⟩
  · intro k v h; rw [hq]; exact MapAdd_lookup_of_dst _ h
  · intro k h; rw [hq]; exact MapAdd_lookup_of_src _ h
  · intro k v h; rw [hf]; exact MapAdd_lookup_of_dst _ h
  · intro k h; rw [hf]; exact MapAdd_lookup_of_src _ h
  · intro k v h; rw [hp]; exact MapAdd_lookup_of_dst _ h
  · intro k h; rw [hp]; exact MapAdd_lookup_of_src _ h
  · intro k v h; rw [hh]; exact MapAdd_lookup_of_dst _ h
  · intro k h; rw [hh]; exact MapAdd_lookup_of_src _ h
  · intro dm sm hd hs
    exact ⟨add_body_maps hd hs,
      fun k v h => MapAdd_lookup_of_dst _ h,
      fun k h => MapAdd_lookup_of_src _ h⟩
  · intro hd; exact add_body_absent hd
  · intro hd hno; exact add_body_keep hd hno

/-- Witness for C5 at the concrete fixture bundles: the shared query key
keeps the destination value, the source-only query key is copied in, and
the unset destination body adopts the scalar source body. -/
theorem c5_add_semantics_witness :
    alookup (fixC5dst.Add fixC5src).queryParams "k" = some 1 ∧
    alookup (fixC5dst.Add fixC5src).queryParams "sq" =
      alookup fixC5src.queryParams "sq" ∧
    (fixC5dst.Add fixC5src).bodyParams = Body.scalar 9 :=
  ⟨(c5_add_semantics fixC5dst fixC5src).1.1 "k" 1 (by decide),
   (c5_add_semantics fixC5dst fixC5src).1.2 "sq" (by decide),
   (c5_add_semantics fixC5dst fixC5src).2.2.2.2.2.1 rfl⟩

/-! ## Loader lemmas -/

theorem add_suiteList_mono {V : Type} (plan : Plan V) (tc : TestSuite V) :
    ∃ l, (Plan.Add plan tc).1.suiteList = plan.suiteList ++ l := by
  cases h : alookup plan.suiteMap tc.name with
  | some s => exact ⟨[], by simp [Plan.Add, h]⟩
  | none => exact ⟨[tc], by simp [Plan.Add, h]⟩

theorem foldInit_plan {V : Type} (testList : List (Test V)) :
    ∀ plan : Plan V,
      (testList.foldl
          (fun p t => { p with params := p.params.Copy t.params, strict := t.strict })
          plan).suiteList = plan.suiteList ∧
      (testList.foldl
          (fun p t => { p with params := p.params.Copy t.params, strict := t.strict })
          plan).suiteMap = plan.suiteMap := by
  induction testList with
  | nil => intro plan; exact ⟨rfl, rfl⟩
  | cons t rest ih => intro plan; simpa using ih _

theorem addSuites_suiteList_mono {V : Type} :
    ∀ (entries : List (String × List (Test V))) (plan : Plan V),
      ∃ l, (addSuites plan entries).1.suiteList = plan.suiteList ++ l := by
  intro entries
  induction entries with
  | nil => intro plan; exact ⟨[], by simp [addSuites]⟩
  | cons e rest ih =>
      intro plan
      obtain ⟨sn, tl⟩ := e
      by_cases hm : sn = MeqaInit
      · simp only [addSuites, if_pos hm]
        obtain ⟨l, hl⟩ := ih (tl.foldl
          (fun p t => { p with params := p.params.Copy t.params, strict := t.strict })
          plan)
        exact ⟨l, by rw [hl, (foldInit_plan tl plan).1]⟩
      · simp only [addSuites, if_neg hm]
        obtain ⟨l₁, h₁⟩ := add_suiteList_mono plan (CreateTestSuite sn tl plan)
        cases hadd : Plan.Add plan (CreateTestSuite sn tl plan) with
        | mk p err =>
            rw [hadd] at h₁
            cases err with
            | some e =>
                exact ⟨l₁, h₁⟩
            | none =>
                obtain ⟨l₂, h₂⟩ := ih p
                refine ⟨l₁ ++ l₂, ?_⟩
                simp only at h₁
                rw [h₂, h₁, List.append_assoc]

theorem addFromString_suiteList_mono {V : Type} (plan : Plan V)
    (chunk : Chunk V) :
    ∃ l, (AddFromString plan chunk).1.suiteList = plan.suiteList ++ l := by
  cases chunk with
  | none => exact ⟨[], by simp [AddFromString]⟩
  | some entries => simpa [AddFromString] using addSuites_suiteList_mono entries plan

theorem foldChunks_suiteList_mono {V : Type} :
    ∀ (chunks : List (Chunk V)) (p : Plan V),
      ∃ l, (chunks.foldl (fun p chunk => (AddFromString p chunk).1) p).suiteList =
        p.suiteList ++ l := by
  intro chunks
  induction chunks with
  | nil => intro p; exact ⟨[], by simp⟩
  | cons c rest ih =>
      intro p
      obtain ⟨l₁, h₁⟩ := addFromString_suiteList_mono p c
      obtain ⟨l₂, h₂⟩ := ih (AddFromString p c).1
      exact ⟨l₁ ++ l₂, by simp only [List.foldl_cons, h₂, h₁, List.append_assoc]⟩

/-- **C9**: `InitFromFile` returns nil for every readable plan file — decode
failures of individual chunks and duplicate-suite-name errors from
`AddFromString` are discarded — and every suite registered while processing
any prefix of the chunks remains registered in the final plan (the suite
list only ever grows). -/
theorem c9_initFromFile_discards_chunk_errors {V : Type} (plan : Plan V)
    (chunks : List (Chunk V)) :
    (InitFromFile plan chunks).2 = none ∧
    ∀ c₁ c₂, chunks = c₁ ++ c₂ →
      ∃ l, (InitFromFile plan chunks).1.suiteList =
        (InitFromFile plan c₁).1.suiteList ++ l := by
  constructor
  · rfl
  · intro c₁ c₂ hsplit
    subst hsplit
    simp only [InitFromFile, List.foldl_append]
    exact foldChunks_suiteList_mono c₂ _

/-- Witness for C9: a document with a malformed chunk and a duplicated suite
name still loads with nil error, and the suite added by the first chunk is
still registered at the end. -/
theorem c9_initFromFile_witness :
    (InitFromFile ({} : Plan Nat) fixC9doc).2 = none ∧
    ∃ l, (InitFromFile ({} : Plan Nat) fixC9doc).1.suiteList =
      (InitFromFile ({} : Plan Nat) [some [("a9", [fixC9t])]]).1.suiteList ++ l := by
  obtain ⟨h1, h2⟩ := c9_initFromFile_discards_chunk_errors ({} : Plan Nat) fixC9doc
  exact ⟨h1, h2 [some [("a9", [fixC9t])]]
    [none, some [("a9", [fixC9t])], some [("b9", [fixC9t])]] rfl⟩

/-- **C3** counterexample: a plan document whose two chunks declare the same
suite name does NOT make the load fail — `InitFromFile` returns nil instead
of a duplicate-name error — refuting the claim that the duplicate aborts the
whole load.  (Only the first declaration is registered.) -/
theorem c3_counterexample :
    (InitFromFile ({} : Plan Nat) fixC3doc).2 = none ∧
    ((InitFromFile ({} : Plan Nat) fixC3doc).1.suiteList.map fun s => s.name) =
      ["s3"] := by
  decide

/-- **C3** (amended): a repeated suite name makes `Plan.Add` fail with a
duplicate-name error and leaves the plan (both SuiteMap and SuiteList)
unchanged, so no partially-added second suite remains, and `AddFromString`
stops processing its chunk on that error; `InitFromFile` however discards
the returned error, so the load as a whole still reports success. -/
theorem c3_amended_duplicate_add_rejected {V : Type} (plan : Plan V)
    (tc : TestSuite V) (h : ∃ s, alookup plan.suiteMap tc.name = some s) :
    (Plan.Add plan tc).1 = plan ∧
    (Plan.Add plan tc).2 =
      some ("Duplicate name " ++ tc.name ++ " found in test plan") := by
  obtain ⟨s, hs⟩ := h
  simp [Plan.Add, hs]

/-- Witness for the amended C3 at the concrete fixture plan. -/
theorem c3_amended_witness :
    (Plan.Add fixC3plan fixC3suite).1 = fixC3plan ∧
    (Plan.Add fixC3plan fixC3suite).2 =
      some ("Duplicate name " ++ fixC3suite.name ++ " found in test plan") :=
  c3_amended_duplicate_add_rejected fixC3plan fixC3suite ⟨fixC3suite, by decide⟩

/-! ## Failure-corpus lemmas -/

theorem alookup_amodify {β : Type} (m : List (String × β)) (k : String)
    (f : β → β) (d : β) (k₁ : String) :
    alookup (amodify m k f d) k₁ =
      if k = k₁ then some (f ((alookup m k).getD d)) else alookup m k₁ := by
  induction m with
  | nil => by_cases hk : k = k₁ <;> simp [amodify, alookup, hk]
  | cons p rest ih =>
      by_cases hp : p.1 = k
      · subst hp
        by_cases hk : p.1 = k₁ <;> simp [amodify, alookup, hk]
      · have hp' : k ≠ p.1 := fun h => hp h.symm
        by_cases hk : p.1 = k₁
        · subst hk
          simp [amodify, alookup, hp, if_neg hp', ih]
        · simp [amodify, alookup, hp, hk, ih]

theorem mem_fvInsert {V : Type} [DecidableEq V] (s : List (FuzzValue V))
    (g fv : FuzzValue V) :
    fv ∈ fvInsert s g ↔ fv ∈ s ∨ fv = g := by
  unfold fvInsert
  by_cases hg : g ∈ s
  · rw [if_pos hg]
    constructor
    · exact Or.inl
    · rintro (h | rfl)
      · exact h
      · exact hg
  · rw [if_neg hg]
    simp [List.mem_append]

theorem lookup3_eq_getD {V : Type} (m : FailMap V) (e mt f : String) :
    lookup3 m e mt f =
      alookup ((alookup ((alookup m e).getD []) mt).getD []) f := by
  rw [lookup3]
  cases h1 : alookup m e with
  | none => simp [alookup]
  | some m2 =>
      cases h2 : alookup m2 mt with
      | none => simp [alookup, h2]
      | some m3 => simp [h2]

theorem leafGet_eq_getD {V : Type} (m : FailMap V) (e mt f : String) :
    leafGet m e mt f =
      (alookup ((alookup ((alookup m e).getD []) mt).getD []) f).getD [] := by
  rw [leafGet, lookup3_eq_getD]

theorem lookup3_readStep_same {V : Type} [DecidableEq V] (cfg : String)
    (acc : FailMap V × List (Payload V)) (v : Payload V) :
    lookup3 (readStep cfg acc v).1 v.endpoint v.method v.field =
      some (if matchedB cfg v then
              fvInsert (leafGet acc.1 v.endpoint v.method v.field)
                { value := v.value, fuzzType := v.fuzzType }
            else leafGet acc.1 v.endpoint v.method v.field) := by
  rw [lookup3_eq_getD]
  simp only [readStep]
  rw [alookup_amodify, if_pos rfl]
  simp only [Option.getD_some]
  rw [alookup_amodify, if_pos rfl]
  simp only [Option.getD_some]
  rw [alookup_amodify, if_pos rfl]
  rw [leafGet_eq_getD]
  by_cases hm : matchedB cfg v <;> simp [hm]

theorem lookup3_readStep_other {V : Type} [DecidableEq V] (cfg : String)
    (acc : FailMap V × List (Payload V)) (v : Payload V) (e mt f : String)
    (h : ¬ (v.endpoint = e ∧ v.method = mt ∧ v.field = f)) :
    lookup3 (readStep cfg acc v).1 e mt f = lookup3 acc.1 e mt f := by
  rw [lookup3_eq_getD, lookup3_eq_getD]
  simp only [readStep]
  rw [alookup_amodify]
  by_cases h1 : v.endpoint = e
  · subst h1
    rw [if_pos rfl]
    simp only [Option.getD_some]
    rw [alookup_amodify]
    by_cases h2 : v.method = mt
    · subst h2
      rw [if_pos rfl]
      simp only [Option.getD_some]
      rw [alookup_amodify]
      have h3 : ¬ v.field = f := fun hf => h ⟨rfl, rfl, hf⟩
      rw [if_neg h3]
    · rw [if_neg h2]
  · rw [if_neg h1]

theorem leafGet_readStep_same {V : Type} [DecidableEq V] (cfg : String)
    (acc : FailMap V × List (Payload V)) (v : Payload V) :
    leafGet (readStep cfg acc v).1 v.endpoint v.method v.field =
      if matchedB cfg v then
        fvInsert (leafGet acc.1 v.endpoint v.method v.field)
          { value := v.value, fuzzType := v.fuzzType }
      else leafGet acc.1 v.endpoint v.method v.field := by
  rw [leafGet, lookup3_readStep_same]
  rfl

theorem leafGet_readStep_other {V : Type} [DecidableEq V] (cfg : String)
    (acc : FailMap V × List (Payload V)) (v : Payload V) (e mt f : String)
    (h : ¬ (v.endpoint = e ∧ v.method = mt ∧ v.field = f)) :
    leafGet (readStep cfg acc v).1 e mt f = leafGet acc.1 e mt f := by
  rw [leafGet, lookup3_readStep_other cfg acc v e mt f h, leafGet]

theorem readFails_others {V : Type} [DecidableEq V] (cfg : String) :
    ∀ (l : List (Payload V)) (acc : FailMap V × List (Payload V)),
      (l.foldl (readStep cfg) acc).2 =
        acc.2 ++ l.filter fun v => !matchedB cfg v := by
  intro l
  induction l with
  | nil => intro acc; simp
  | cons v rest ih =>
      intro acc
      rw [List.foldl_cons, ih]
      by_cases hm : matchedB cfg v
      · simp [readStep, hm, List.filter_cons]
      · simp [readStep, hm, List.filter_cons]

theorem readFails_present {V : Type} [DecidableEq V] (cfg : String) :
    ∀ (l : List (Payload V)) (acc : FailMap V × List (Payload V))
      (e mt f : String),
      (lookup3 (l.foldl (readStep cfg) acc).1 e mt f).isSome ↔
        ((lookup3 acc.1 e mt f).isSome ∨
          ∃ v ∈ l, v.endpoint = e ∧ v.method = mt ∧ v.field = f) := by
  intro l
  induction l with
  | nil => intro acc e mt f; simp
  | cons v rest ih =>
      intro acc e mt f
      rw [List.foldl_cons, ih]
      by_cases hp : v.endpoint = e ∧ v.method = mt ∧ v.field = f
      · obtain ⟨h1, h2, h3⟩ := hp
        subst h1
        subst h2
        subst h3
        rw [lookup3_readStep_same]
        simp only [Option.isSome_some, true_or, true_iff]
        exact Or.inr ⟨v, List.mem_cons_self v rest, rfl, rfl, rfl⟩
      · rw [lookup3_readStep_other cfg acc v e mt f hp]
        constructor
        · rintro (h | ⟨w, hw, hwp⟩)
          · exact Or.inl h
          · exact Or.inr ⟨w, List.mem_cons_of_mem _ hw, hwp⟩
        · rintro (h | ⟨w, hw, hwp⟩)
          · exact Or.inl h
          · rcases List.mem_cons.mp hw with rfl | hw'
            · exact absurd hwp hp
            · exact Or.inr ⟨w, hw', hwp⟩

theorem readFails_leafMem {V : Type} [DecidableEq V] (cfg : String) :
    ∀ (l : List (Payload V)) (acc : FailMap V × List (Payload V))
      (e mt f : String) (fv : FuzzValue V),
      fv ∈ leafGet (l.foldl (readStep cfg) acc).1 e mt f ↔
        (fv ∈ leafGet acc.1 e mt f ∨
          ∃ v ∈ l, v.endpoint = e ∧ v.method = mt ∧ v.field = f ∧
            matchedB cfg v = true ∧
            fv = { value := v.value, fuzzType := v.fuzzType }) := by
  intro l
  induction l with
  | nil => intro acc e mt f fv; simp
  | cons v rest ih =>
      intro acc e mt f fv
      rw [List.foldl_cons, ih]
      by_cases hp : v.endpoint = e ∧ v.method = mt ∧ v.field = f
      · obtain ⟨h1, h2, h3⟩ := hp
        subst h1
        subst h2
        subst h3
        rw [leafGet_readStep_same]
        by_cases hm : matchedB cfg v
        · rw [if_pos hm, mem_fvInsert]
          constructor
          · rintro ((h | rfl) | ⟨w, hw, hwp⟩)
            · exact Or.inl h
            · exact Or.inr ⟨v, List.mem_cons_self v rest, rfl, rfl, rfl, hm, rfl⟩
            · exact Or.inr ⟨w, List.mem_cons_of_mem _ hw, hwp⟩
          · rintro (h | ⟨w, hw, hwp⟩)
            · exact Or.inl (Or.inl h)
            · rcases List.mem_cons.mp hw with rfl | hw'
              · exact Or.inl (Or.inr hwp.2.2.2.2)
              · exact Or.inr ⟨w, hw', hwp⟩
        · rw [if_neg hm]
          constructor
          · rintro (h | ⟨w, hw, hwp⟩)
            · exact Or.inl h
            · exact Or.inr ⟨w, List.mem_cons_of_mem _ hw, hwp⟩
          · rintro (h | ⟨w, hw, hwp⟩)
            · exact Or.inl h
            · rcases List.mem_cons.mp hw with rfl | hw'
              · exact absurd hwp.2.2.2.1 hm
              · exact Or.inr ⟨w, hw', hwp⟩
      · rw [leafGet_readStep_other cfg acc v e mt f hp]
        constructor
        · rintro (h | ⟨w, hw, hwp⟩)
          · exact Or.inl h
          · exact Or.inr ⟨w, List.mem_cons_of_mem _ hw, hwp⟩
        · rintro (h | ⟨w, hw, hwp⟩)
          · exact Or.inl h
          · rcases List.mem_cons.mp hw with rfl | hw'
            · exact absurd ⟨hwp.1, hwp.2.1, hwp.2.2.1⟩ hp
            · exact Or.inr ⟨w, hw', hwp⟩

/-- **C6**: writing a NewFailures list with the corpus writer in append mode
onto a fresh corpus and reading the corpus back with the same FuzzType
configuration reproduces exactly the written records, partitioned correctly:
the new-failures file holds exactly the records written to the corpus; every
written record whose fuzz type equals the configured type (or when the
configured type is the wildcard "all") is present as its FuzzValue under its
endpoint, method and field in OldFailuresMap; every other written record
appears unchanged, in order, in OtherFailures; and every FuzzValue found in
OldFailuresMap comes from a matching written record (nothing extra). -/
theorem c6_corpus_roundtrip {V : Type} [DecidableEq V] (cfg : String)
    (meta : List (String × V)) (newFailures : List (Payload V)) :
    (WriteFailuresAppend meta [] newFailures).2 =
      (WriteFailuresAppend meta [] newFailures).1 ∧
    (ReadFails cfg (WriteFailuresAppend meta [] newFailures).1).2 =
      ((WriteFailuresAppend meta [] newFailures).1.filter
        fun v => !matchedB cfg v) ∧
    (∀ p ∈ (WriteFailuresAppend meta [] newFailures).1,
      matchedB cfg p = true →
      (lookup3 (ReadFails cfg (WriteFailuresAppend meta [] newFailures).1).1
          p.endpoint p.method p.field).isSome ∧
      ({ value := p.value, fuzzType := p.fuzzType } : FuzzValue V) ∈
        leafGet (ReadFails cfg (WriteFailuresAppend meta [] newFailures).1).1
          p.endpoint p.method p.field) ∧
    (∀ e mt f fv,
      fv ∈ leafGet (ReadFails cfg (WriteFailuresAppend meta [] newFailures).1).1
          e mt f →
      ∃ p ∈ (WriteFailuresAppend meta [] newFailures).1,
        p.endpoint = e ∧ p.method = mt ∧ p.field = f ∧
        matchedB cfg p = true ∧
        fv = { value := p.value, fuzzType := p.fuzzType }) := by
  refine ⟨rfl, ?_, ?_, ?_⟩
  · rw [ReadFails, readFails_others]
    rfl
  · intro p hp hm
    constructor
    · rw [ReadFails, readFails_present]
      exact Or.inr ⟨p, hp, rfl, rfl, rfl⟩
    · rw [ReadFails, readFails_leafMem]
      exact Or.inr ⟨p, hp, rfl, rfl, rfl, hm, rfl⟩
  · intro e mt f fv hfv
    rw [ReadFails, readFails_leafMem] at hfv
    rcases hfv with h | h
    · simp [leafGet, lookup3, alookup] at h
    · exact h

/-- Witness for C6: with the configured type "dataType", the written record
of that type is present in the map under its path and the record of type
"enum" is routed to OtherFailures. -/
theorem c6_corpus_roundtrip_witness :
    ({ value := 1, fuzzType := "dataType" } : FuzzValue Nat) ∈
      leafGet (ReadFails "dataType"
          (WriteFailuresAppend fixC6meta [] [fixC6p1, fixC6p2]).1).1
        "e6" "post" "f6" ∧
    (ReadFails "dataType"
        (WriteFailuresAppend fixC6meta [] [fixC6p1, fixC6p2]).1).2 =
      ((WriteFailuresAppend fixC6meta [] [fixC6p1, fixC6p2]).1.filter
        fun v => !matchedB "dataType" v) := by
  obtain ⟨h₁, h₂, h₃, h₄⟩ :=
    c6_corpus_roundtrip "dataType" fixC6meta [fixC6p1, fixC6p2]
  exact ⟨(h₃ { fixC6p1 with meta := fixC6meta } (by decide) (by decide)).2, h₂⟩

/-- **C10**: the ReadFails decode loop inserts the endpoint, method and field
keys into the nested map before the fuzz-type classification, so even a
record routed to OtherFailures leaves its endpoint→method→field path present
in OldFailuresMap — with the empty innermost FuzzValue set when no
matching-type record shares that path — while the record itself lands in
OtherFailures. -/
theorem c10_path_inserted_before_classification {V : Type} [DecidableEq V]
    (cfg : String) (records : List (Payload V)) (v : Payload V)
    (hv : v ∈ records) (hmis : matchedB cfg v = false) :
    (∃ s, lookup3 (ReadFails cfg records).1 v.endpoint v.method v.field =
      some s) ∧
    ((∀ w ∈ records, w.endpoint = v.endpoint → w.method = v.method →
        w.field = v.field → matchedB cfg w = false) →
      lookup3 (ReadFails cfg records).1 v.endpoint v.method v.field =
        some []) ∧
    v ∈ (ReadFails cfg records).2 := by
  have hpresent :
      (lookup3 (ReadFails cfg records).1 v.endpoint v.method v.field).isSome := by
    rw [ReadFails, readFails_present]
    exact Or.inr ⟨v, hv, rfl, rfl, rfl⟩
  obtain ⟨s, hs⟩ := Option.isSome_iff_exists.mp hpresent
  refine ⟨⟨s, hs⟩, ?_, ?_⟩
  · intro hnone
    rw [hs]
    have hsleaf : leafGet (ReadFails cfg records).1 v.endpoint v.method v.field
        = s := by
      rw [leafGet, hs]
      rfl
    have : s = [] := by
      rw [List.eq_nil_iff_forall_not_mem]
      intro fv hfv
      rw [← hsleaf, ReadFails, readFails_leafMem] at hfv
      rcases hfv with h | ⟨w, hw, he, hm, hf, hmt, _⟩
      · simp [leafGet, lookup3, alookup] at h
      · exact absurd hmt (by simp [hnone w hw he hm hf])
    rw [this]
  · rw [ReadFails, readFails_others]
    simp only [List.nil_append, List.mem_filter]
    exact ⟨hv, by simp [hmis]⟩

/-- Witness for C10: a lone record of a non-configured fuzz type leaves its
path in the map with the empty FuzzValue set and itself in OtherFailures. -/
theorem c10_witness :
    (∃ s, lookup3 (ReadFails "dataType" [fixC10r]).1 "ea" "get" "fa" = some s) ∧
    lookup3 (ReadFails "dataType" [fixC10r]).1 "ea" "get" "fa" = some [] ∧
    fixC10r ∈ (ReadFails "dataType" [fixC10r]).2 := by
  obtain ⟨h₁, h₂, h₃⟩ := c10_path_inserted_before_classification "dataType"
    [fixC10r] fixC10r (by decide) (by decide)
  exact ⟨h₁, h₂ (by decide), h₃⟩

/-- **C8** counterexample: after a run in which the same fuzz input is
observed twice, the fuzz-failure number printed by PrintSummary is the raw
length 2 of the NewFailures list, while the distinct count is 1 — refuting
the claim that identical fuzz inputs are collapsed regardless of how many
times they were observed. -/
theorem c8_counterexample :
    (PrintSummary (runSuite 10 fixC8st "s8" none).1
        (runSuite 10 fixC8st "s8" none).2.2.newFailures).fuzzFails ≠
      distinctCount (runSuite 10 fixC8st "s8" none).2.2.newFailures := by
  decide

/-- **C8** (amended): PrintSummary reports, alongside the tabular counter
summary, the raw length of the accumulated NewFailures list as the
fuzz-failure count, counting an identical fuzz input once per observation
rather than collapsing duplicates. -/
theorem c8_amended_raw_length {V : Type} (counts : Counters)
    (newFailures : List (Payload V)) :
    (PrintSummary counts newFailures).fuzzFails = newFailures.length ∧
    (PrintSummary counts newFailures).passed = counts.passed ∧
    (PrintSummary counts newFailures).failed = counts.failed ∧
    (PrintSummary counts newFailures).skipped = counts.skipped ∧
    (PrintSummary counts newFailures).schemaMismatch = counts.schemaMismatch ∧
    (PrintSummary counts newFailures).total = counts.total ∧
    (PrintSummary counts newFailures).fuzzTotal = counts.fuzzTotal :=
  ⟨rfl, rfl, rfl, rfl, rfl, rfl, rfl⟩

/-! ## Execution-engine lemmas -/

theorem runFrom_cascading_skip {V : Type} [DecidableEq V] (tc : TestSuite V)
    (name : String) (k : Nat) (tk : Test V)
    (hconc : ∀ t ∈ tc.tests, t.ref = "" ∧ t.name ≠ MeqaInit)
    (hk : tc.tests[k]? = some tk) (htk : skipTrigger tk) :
    ∀ fuel i c e (st : RunState V), getSuite st name = some tc → i ≤ k →
      k - i < fuel →
      (∀ j t, i ≤ j → j < k → tc.tests[j]? = some t → ¬ skipTrigger t) →
      (runFrom fuel st name none i c e).1.skipped =
          c.skipped + (tc.tests.length - k - 1) ∧
      (runFrom fuel st name none i c e).2.2.resultList.length =
          st.resultList.length + (k - i + 1) := by
  intro fuel
  induction fuel with
  | zero => intro i c e st hget hik hfuel hbef; omega
  | succ f ih =>
      intro i c e st hget hik hfuel hbef
      have hklen : k < tc.tests.length := by
        rcases List.getElem?_eq_some.mp hk with ⟨h, _⟩
        exact h
      have hilen : i < tc.tests.length := lt_of_le_of_lt hik hklen
      have hti : tc.tests[i]? = some tc.tests[i] :=
        List.getElem?_eq_getElem hilen
      obtain ⟨href, hname⟩ := hconc tc.tests[i] (List.getElem_mem hilen)
      simp only [runFrom, hget, hti, href, hname, ne_eq, not_true_eq_false,
        not_false_eq_true, if_neg, if_false, ite_false, ite_true,
        Test.ResolveHistory]
      rcases Nat.lt_or_ge i k with hik' | hik'
      · -- step i is before the failing POST: it does not trigger the skip
        have hns : ¬ skipTrigger tc.tests[i] :=
          hbef i _ (le_refl i) hik' hti
        rw [if_neg (by simpa [skipTrigger] using hns)]
        have haux : ∀ (c' : Counters) (e' : Option String) (st' : RunState V),
            getSuite st' name = some tc →
            c'.skipped = c.skipped →
            st'.resultList.length = st.resultList.length + 1 →
            (runFrom f st' name none (i + 1) c' e').1.skipped =
                c.skipped + (tc.tests.length - k - 1) ∧
            (runFrom f st' name none (i + 1) c' e').2.2.resultList.length =
                st.resultList.length + (k - i + 1) := by
          intro c' e' st' hget' hcs hrl
          obtain ⟨h1, h2⟩ := ih (i + 1) c' e' st' hget' (by omega) (by omega)
            (fun j t hij hjk ht => hbef j t (by omega) hjk ht)
          exact ⟨by rw [h1, hcs], by rw [h2, hrl]; omega⟩
        apply haux
        · exact hget
        · split <;> split <;> rfl
        · simp
      · -- step i is the failing POST itself
        have hieq : i = k := le_antisymm hik hik'
        subst hieq
        have htkeq : tc.tests[i] = tk :=
          Option.some_injective _ (hti.symm.trans hk)
        have hcond : tc.tests[i].method = MethodPost ∧
            tc.tests[i].params.pathParams = [] ∧
            300 ≤ tc.tests[i].outStatus := by
          rw [htkeq]
          exact htk
        rw [if_pos hcond]
        refine ⟨?_, ?_⟩
        · dsimp only
          have hcs : ∀ c2 : Counters,
              c2.skipped = c.skipped →
              c2.skipped + (tc.tests.length - i - 1) =
                c.skipped + (tc.tests.length - i - 1) := by
            intro c2 h
            rw [h]
          apply hcs
          split <;> split <;> rfl
        · simp only [List.length_append, List.length_cons, List.length_nil]
          omega

/-- **C1**: in a suite of concrete steps (no refs, no `meqa_init`), if step
`k` is the first step satisfying the cascading-skip condition and it is a
POST with no path parameters answered with a 4xx/5xx status, then running
the suite marks all remaining steps as skipped — the Skipped counter equals
N−k−1 — and stops iterating immediately: exactly k+1 steps execute (the
result list grows by k+1).  The first-trigger hypothesis is what "step k's
response status indicates an error" presumes: had an earlier step triggered
the skip, step k would never have executed or received a response. -/
theorem c1_cascading_skip {V : Type} [DecidableEq V] (st : RunState V)
    (name : String) (tc : TestSuite V) (k : Nat) (tk : Test V) (fuel : Nat)
    (hget : getSuite st name = some tc)
    (hconc : ∀ t ∈ tc.tests, t.ref = "" ∧ t.name ≠ MeqaInit)
    (hk : tc.tests[k]? = some tk)
    (hbefore : ∀ j t, j < k → tc.tests[j]? = some t → ¬ skipTrigger t)
    (hpost : tk.method = MethodPost)
    (hpath : tk.params.pathParams = [])
    (hstatus : 400 ≤ tk.outStatus ∧ tk.outStatus < 600)
    (hfuel : tc.tests.length < fuel) :
    (runSuite fuel st name none).1.skipped = tc.tests.length - k - 1 ∧
    (runSuite fuel st name none).2.2.resultList.length =
      st.resultList.length + (k + 1) := by
  have htk : skipTrigger tk := ⟨hpost, hpath, by omega⟩
  have hklen : k < tc.tests.length := by
    rcases List.getElem?_eq_some.mp hk with ⟨h, _⟩
    exact h
  obtain ⟨f, rfl⟩ : ∃ f, fuel = f + 1 := ⟨fuel - 1, by omega⟩
  have hne : ¬ tc.tests.length = 0 := by omega
  simp only [runSuite, hget]
  rw [if_neg hne]
  have h := runFrom_cascading_skip tc name k tk hconc hk htk f 0
    { total := tc.tests.length } none st hget (by omega) (by omega)
    (fun j t h0 hj ht => hbefore j t hj ht)
  exact ⟨by simpa using h.1, by simpa using h.2⟩

/-- Witness for C1: in the three-step fixture suite whose middle step is a
no-path-parameter POST answered 404, one step is skipped and exactly two
steps execute. -/
theorem c1_cascading_skip_witness :
    (runSuite 10 fixC1st "w1" none).1.skipped = 1 ∧
    (runSuite 10 fixC1st "w1" none).2.2.resultList.length = 2 := by
  have hbef : ∀ j t, j < 1 → fixC1suite.tests[j]? = some t →
      ¬ skipTrigger t := by
    intro j t hj ht
    interval_cases j
    simp only [fixC1suite, List.getElem?_cons_zero, Option.some_inj] at ht
    subst ht
    decide
  have h := c1_cascading_skip fixC1st "w1" fixC1suite 1 fixC1t1 10 rfl
    (by decide) rfl hbef (by decide) (by decide) (by decide) (by decide)
  exact h

/-- **C2** counterexample: in the fixture plan, suite A runs one passing
concrete step and then, as its last step, references suite B whose only step
passes.  If the recursive Run call's counters replaced the caller's
accumulated counters, the run of A would return the innermost call's
counters — those of running B, namely Total = 1, Passed = 1.  The code
instead returns Total = 2, Passed = 1: the Go `:=` inside the loop binds the
recursive call's counters to a fresh, shadowed variable, so on success they
are discarded, not substituted for the caller's. -/
theorem c2_counterexample :
    (runSuite 10 fixC2st "A" none).1 =
      { total := 2, passed := 1 } ∧
    (runSuite 10 fixC2st "B" none).1 =
      { total := 1, passed := 1 } ∧
    ({ total := 2, passed := 1 } : Counters) ≠ { total := 1, passed := 1 } := by
  decide

/-- **C2** (amended): on a ref step, the recursive Run call's returned
counters are bound to a fresh variable that shadows the caller's: when the
recursive call succeeds they are discarded and the loop continues with the
caller's accumulated counters and first error unchanged; when the recursive
call fails, Run returns immediately with the recursive call's counters and
its error, in place of the caller's. -/
theorem c2_amended_ref_counters_discarded {V : Type} [DecidableEq V]
    (fuel : Nat) (st : RunState V) (name : String)
    (parentTest : Option (Test V)) (i : Nat) (counters : Counters)
    (tcErr : Option String) (tc : TestSuite V) (test : Test V)
    (hget : getSuite st name = some tc)
    (hi : tc.tests[i]? = some test)
    (href : test.ref ≠ "") :
    runFrom (fuel + 1) st name parentTest i counters tcErr =
      (match runSuite fuel
          (setSuite st name
            { tc with tests := tc.tests.set i { test with strict := tc.strict } })
          test.ref (some { test with strict := tc.strict }) with
       | (rc, some err, st2) => (rc, some err, st2)
       | (_, none, st2) =>
           runFrom fuel st2 name parentTest (i + 1) counters tcErr) := by
  simp only [runFrom, hget, hi]
  rw [if_pos href]

/-- Witness for the amended C2 at the fixture plan, with the recursive call
succeeding: the equation of `c2_amended_ref_counters_discarded` instantiated
at the ref step of suite A shows the caller continues with its own counters,
and evaluating both sides confirms the discarded inner counters. -/
theorem c2_amended_ref_counters_witness :
    (runFrom 9 fixC2st "A" none 1 { total := 2, passed := 1 } none).1.total
      = 2 := by
  rw [c2_amended_ref_counters_discarded 8 fixC2st "A" none 1
    { total := 2, passed := 1 } none fixC2A fixC2refTest rfl rfl (by decide)]
  decide

/-! ## Preservation of declared tests under Run (C7) -/

theorem testPreserved_refl {V : Type} (t : Test V) : testPreserved t t :=
  ⟨Or.inl rfl, rfl, rfl, rfl, rfl, rfl, rfl, rfl, rfl, rfl⟩

theorem testPreserved_trans {V : Type} {a b c : Test V}
    (h1 : testPreserved a b) (h2 : testPreserved b c) : testPreserved a c := by
  obtain ⟨hs1, hn1, hr1, hm1, hp1, hpa1, ho1, hop1, hos1, hor1⟩ := h1
  obtain ⟨hs2, hn2, hr2, hm2, hp2, hpa2, ho2, hop2, hos2, hor2⟩ := h2
  refine ⟨?_, hn2.trans hn1, hr2.trans hr1, hm2.trans hm1, hp2.trans hp1,
    hpa2.trans hpa1, ho2.trans ho1, hop2.trans hop1, hos2.trans hos1,
    hor2.trans hor1⟩
  rcases hs1 with hs1 | hrefa
  · rcases hs2 with hs2 | hrefb
    · exact Or.inl (hs2.trans hs1)
    · exact Or.inr (hr1 ▸ hrefb)
  · exact Or.inr hrefa

theorem testPreserved_strict {V : Type} (t : Test V) (b : Bool)
    (h : t.ref ≠ "") : testPreserved t { t with strict := b } :=
  ⟨Or.inr h, rfl, rfl, rfl, rfl, rfl, rfl, rfl, rfl, rfl⟩

theorem forall2_trans_of {α : Type} {R : α → α → Prop}
    (hR : ∀ a b c, R a b → R b c → R a c) :
    ∀ {l1 l2 l3 : List α}, List.Forall₂ R l1 l2 → List.Forall₂ R l2 l3 →
      List.Forall₂ R l1 l3 := by
  intro l1 l2 l3 h1 h2
  induction h1 generalizing l3 with
  | nil => cases h2; exact List.Forall₂.nil
  | cons hab _ ih =>
      cases h2 with
      | cons hbc h2' => exact List.Forall₂.cons (hR _ _ _ hab hbc) (ih h2')

theorem forall2_testPreserved_refl {V : Type} (l : List (Test V)) :
    List.Forall₂ testPreserved l l :=
  List.forall₂_same.mpr fun x _ => testPreserved_refl x

theorem forall2_testPreserved_set {V : Type} :
    ∀ (l : List (Test V)) (i : Nat) (test a : Test V),
      l[i]? = some test → testPreserved test a →
      List.Forall₂ testPreserved l (l.set i a) := by
  intro l
  induction l with
  | nil => intro i test a h hrel; simp at h
  | cons x rest ih =>
      intro i test a h hrel
      cases i with
      | zero =>
          simp only [List.getElem?_cons_zero, Option.some_inj] at h
          subst h
          exact List.Forall₂.cons hrel (forall2_testPreserved_refl rest)
      | succ n =>
          simp only [List.getElem?_cons_succ] at h
          exact List.Forall₂.cons (testPreserved_refl x) (ih n test a h hrel)

theorem suiteEntryPreserved_refl {V : Type} (p : String × TestSuite V) :
    suiteEntryPreserved p p :=
  ⟨rfl, rfl, rfl, rfl, rfl, forall2_testPreserved_refl _⟩

theorem suiteEntryPreserved_trans {V : Type} {p q r : String × TestSuite V}
    (h1 : suiteEntryPreserved p q) (h2 : suiteEntryPreserved q r) :
    suiteEntryPreserved p r := by
  obtain ⟨a1, b1, c1, d1, e1, f1⟩ := h1
  obtain ⟨a2, b2, c2, d2, e2, f2⟩ := h2
  exact ⟨a2.trans a1, b2.trans b1, c2.trans c1, d2.trans d1, e2.trans e1,
    @forall2_trans_of _ testPreserved
      (fun _ _ _ ha hb => testPreserved_trans ha hb) _ _ _ f1 f2⟩

theorem statePreserved_refl {V : Type} (st : RunState V) :
    statePreserved st st :=
  List.forall₂_same.mpr fun x _ => suiteEntryPreserved_refl x

theorem statePreserved_trans {V : Type} {s1 s2 s3 : RunState V}
    (h1 : statePreserved s1 s2) (h2 : statePreserved s2 s3) :
    statePreserved s1 s3 :=
  @forall2_trans_of _ suiteEntryPreserved
    (fun _ _ _ ha hb => suiteEntryPreserved_trans ha hb) _ _ _ h1 h2

theorem updateFirst_preserved {V : Type} :
    ∀ (l : List (String × TestSuite V)) (name : String) (tc tc1 : TestSuite V),
      alookup l name = some tc →
      tc1.name = tc.name → tc1.username = tc.username →
      tc1.password = tc.password → tc1.apiToken = tc.apiToken →
      List.Forall₂ testPreserved tc.tests tc1.tests →
      List.Forall₂ suiteEntryPreserved l (updateFirst l name tc1) := by
  intro l
  induction l with
  | nil =>
      intro name tc tc1 h _ _ _ _ _
      simp [alookup] at h
  | cons p rest ih =>
      intro name tc tc1 hget hn hu hp ha htests
      by_cases hk : p.1 = name
      · have hp2 : p.2 = tc := by
          simp only [alookup] at hget
          rw [if_pos hk] at hget
          exact Option.some_inj.mp hget
        simp only [updateFirst]
        rw [if_pos hk]
        refine List.Forall₂.cons ⟨rfl, ?_, ?_, ?_, ?_, ?_⟩
          (List.forall₂_same.mpr fun x _ => suiteEntryPreserved_refl x)
        · rw [hp2]; exact hn
        · rw [hp2]; exact hu
        · rw [hp2]; exact hp
        · rw [hp2]; exact ha
        · rw [hp2]; exact htests
      · have hget' : alookup rest name = some tc := by
          simp only [alookup] at hget
          rw [if_neg hk] at hget
          exact hget
        simp only [updateFirst]
        rw [if_neg hk]
        exact List.Forall₂.cons (suiteEntryPreserved_refl p)
          (ih name tc tc1 hget' hn hu hp ha htests)

theorem statePreserved_setSuite {V : Type} (st : RunState V) (name : String)
    (tc tc1 : TestSuite V) (hget : getSuite st name = some tc)
    (hn : tc1.name = tc.name) (hu : tc1.username = tc.username)
    (hp : tc1.password = tc.password) (ha : tc1.apiToken = tc.apiToken)
    (htests : List.Forall₂ testPreserved tc.tests tc1.tests) :
    statePreserved st (setSuite st name tc1) :=
  updateFirst_preserved st.suiteMap name tc tc1 hget hn hu hp ha htests

theorem run_preserves {V : Type} [DecidableEq V] :
    ∀ fuel : Nat,
      (∀ (st : RunState V) (name : String) (parentTest : Option (Test V)),
        statePreserved st (runSuite fuel st name parentTest).2.2) ∧
      (∀ (st : RunState V) (name : String) (parentTest : Option (Test V))
        (i : Nat) (c : Counters) (e : Option String),
        statePreserved st (runFrom fuel st name parentTest i c e).2.2) := by
  intro fuel
  induction fuel with
  | zero =>
      exact ⟨fun st name p => statePreserved_refl st,
        fun st name p i c e => statePreserved_refl st⟩
  | succ f ih =>
      obtain ⟨ihS, ihF⟩ := ih
      constructor
      · intro st name parentTest
        simp only [runSuite]
        split
        · exact statePreserved_refl st
        · split
          · exact statePreserved_refl st
          · exact ihF st name parentTest 0 _ none
      · intro st name parentTest i c e
        simp only [runFrom]
        split
        · exact statePreserved_refl st
        · rename_i tc hget
          split
          · exact statePreserved_refl st
          · rename_i test hti
            by_cases href : test.ref = ""
            · rw [if_neg fun hc => hc href]
              by_cases hinit : test.name = MeqaInit
              · rw [if_pos hinit]
                exact statePreserved_trans
                  (statePreserved_setSuite st name tc
                    { tc with params := tc.params.Copy test.params,
                              strict := test.strict }
                    hget rfl rfl rfl rfl
                    (forall2_testPreserved_refl tc.tests))
                  (ihF _ name parentTest (i + 1) c e)
              · rw [if_neg hinit]
                split
                · exact statePreserved_refl st
                · refine statePreserved_trans ?_ (ihF _ name parentTest (i + 1) _ _)
                  exact statePreserved_refl st
            · rw [if_pos href]
              have hstep : statePreserved st (setSuite st name
                  { tc with
                      tests := tc.tests.set i
                        { test with strict := tc.strict } }) :=
                statePreserved_setSuite st name tc
                  { tc with
                      tests := tc.tests.set i
                        { test with strict := tc.strict } }
                  hget rfl rfl rfl rfl
                  (forall2_testPreserved_set tc.tests i test
                    { test with strict := tc.strict } hti
                    (testPreserved_strict test tc.strict href))
              have hinner := ihS (setSuite st name
                  { tc with
                      tests := tc.tests.set i
                        { test with strict := tc.strict } })
                  test.ref (some { test with strict := tc.strict })
              split
              · rename_i rc err st2 heq
                rw [heq] at hinner
                exact statePreserved_trans hstep hinner
              · rename_i rc st2 heq
                rw [heq] at hinner
                exact statePreserved_trans (statePreserved_trans hstep hinner)
                  (ihF st2 name parentTest (i + 1) c e)

/-- **C7** (amended): concrete steps are executed on duplicates, so running a
suite never changes any declared test's name, ref, method, path, parameter
bundle or outcome, and never changes the strict flag of a declared concrete
test; the one mutation the engine performs on declared tests is overwriting
a ref step's Strict flag with the suite's current Strict flag (and, through
`meqa_init` steps, a suite's own parameter and strict defaults). -/
theorem c7_amended_declared_tests_preserved {V : Type} [DecidableEq V]
    (fuel : Nat) (st : RunState V) (name : String)
    (parentTest : Option (Test V)) :
    statePreserved st (runSuite fuel st name parentTest).2.2 :=
  (run_preserves fuel).1 st name parentTest

/-- **C7** counterexample: running fixture suite A7 (a strict suite whose
only step is a ref step declared with strict = false) overwrites the
declared test's Strict flag to true inside the canonical suite map — the
canonical declared Test IS mutated by Run, refuting the claim that it never
is. -/
theorem c7_counterexample :
    ((getSuite (runSuite 10 fixC7st "A7" none).2.2 "A7").map
      fun s => s.tests.map fun t => t.strict) = some [true] ∧
    fixC7A.tests.map (fun t => t.strict) = [false] := by
  decide

end Meqa
